import Mathlib

/-!
Verification development for the Top3-Hunter repository (frontend TypeScript
sources plus the specified backend pipeline).

The data model follows `frontend/src/types` (ProductRecommendation,
SearchResponse, SearchResult, Configuration, ApiResponse).  Frontend logic is
embedded from `frontend/src/lib/api.ts` (ApiClient) and
`frontend/src/lib/utils.ts` (formatPrice) and the search form's
`handleSubmit`.  TypeScript `number` fields are embedded as `ℚ`; optional
fields as `Option`; JavaScript truthiness is made explicit at each use site.
Backend components (model extractor validation, cache, coalescer, key
normalization, configuration store writes) are not present in the repository
sources; they are modelled from the specification and marked as such.
-/

namespace Top3

/-- JavaScript string whitespace (the set trimmed by `String.prototype.trim`). -/
def isJsWhitespace (c : Char) : Bool :=
  c.toNat = 9 || c.toNat = 10 || c.toNat = 11 || c.toNat = 12 || c.toNat = 13 ||
  c.toNat = 32 || c.toNat = 0xa0 || c.toNat = 0x1680 ||
  (0x2000 ≤ c.toNat && c.toNat ≤ 0x200a) ||
  c.toNat = 0x2028 || c.toNat = 0x2029 || c.toNat = 0x202f ||
  c.toNat = 0x205f || c.toNat = 0x3000 || c.toNat = 0xfeff

/-- JavaScript `String.prototype.trim`: drop whitespace from both ends. -/
def jsTrim (s : String) : String :=
  ⟨((s.data.dropWhile isJsWhitespace).reverse.dropWhile isJsWhitespace).reverse⟩

/- Data model, from `frontend/src/types/index.ts`. -/

/-- Interface `ProductRecommendation` from the types module. -/
structure ProductRecommendation where
  rank : ℚ
  product_name : String
  description : String
  source_link : String
  price : Option String
  rating : Option ℚ
  image_url : Option String
  pros : Option (List String)
  cons : Option (List String)
  best_for : Option String
deriving DecidableEq, Repr

/-- Interface `SearchRequest` from the types module. -/
structure SearchRequest where
  keyword : String
deriving DecidableEq, Repr

/-- Interface `SearchResponse` from the types module (the RecommendationResponse of the spec). -/
structure SearchResponse where
  products : List ProductRecommendation
  total_results : ℚ
  search_time : ℚ
  cached : Bool
deriving DecidableEq, Repr

/-- Interface `SearchResult` from the types module (a Serper search hit). -/
structure SearchResult where
  title : String
  link : String
  snippet : String
  position : ℚ
  favicon : Option String
  date : Option String
deriving DecidableEq, Repr

/-- The `group` union type of `Configuration`: exactly four literals. -/
inductive ConfigGroup where
  | api
  | prompt
  | ui
  | cache
deriving DecidableEq, Repr

/-- The string literal a `ConfigGroup` stands for. -/
def ConfigGroup.name : ConfigGroup → String
  | .api => "api"
  | .prompt => "prompt"
  | .ui => "ui"
  | .cache => "cache"

/-- Interface `Configuration` from the types module. -/
structure Configuration where
  id : ℚ
  key : String
  value : String
  group : ConfigGroup
  updated_at : String
deriving DecidableEq, Repr

/-- The `status` union of `ApiResponse`. -/
inductive ApiStatus where
  | success
  | error
deriving DecidableEq, Repr

/-- Interface `ApiResponse<T>` from the types module. -/
structure ApiResponse (T : Type) where
  status : ApiStatus
  data : Option T
  message : Option String
deriving DecidableEq, Repr

/- formatPrice, from `frontend/src/lib/utils.ts`. -/

/-- The `string | number` argument type of `formatPrice`. -/
inductive PriceInput where
  | num (q : ℚ)
  | str (s : String)
deriving DecidableEq, Repr

/-- Character class `[\d,]` of the price-extraction regex. -/
def isDigitOrComma (c : Char) : Bool :=
  c.isDigit || c = ','

/-- The optional `\.?\d*` suffix of a regex match, taken greedily after the
`[\d,]+` run. -/
def fracTail (cs : List Char) : List Char :=
  if cs.head? = some '.' then '.' :: cs.tail.takeWhile Char.isDigit else []

/-- The match of `[\d,]+\.?\d*` starting at the head of `cs` (the head is
assumed to satisfy `[\d,]`). -/
def matchAt (cs : List Char) : List Char :=
  cs.takeWhile isDigitOrComma ++ fracTail (cs.dropWhile isDigitOrComma)

/-- Leftmost match of `/[\d,]+\.?\d*/` in a character list, as
`String.prototype.match` finds it. -/
def firstMatch : List Char → Option (List Char)
  | [] => none
  | c :: cs => if isDigitOrComma c then some (matchAt (c :: cs)) else firstMatch cs

/-- The call `replace(/,/g, '')`: remove every comma. -/
def stripCommas (cs : List Char) : List Char :=
  cs.filter (fun c => c ≠ ',')

/-- Numeric value of a run of decimal digits. -/
def digitsToNat (ds : List Char) : Nat :=
  ds.foldl (fun a c => a * 10 + (c.toNat - 48)) 0

/-- JavaScript `parseFloat` restricted to the comma-stripped shape produced by
the price regex: an optional digit run, an optional dot, an optional digit
run; `none` is NaN (no digits at all). -/
def parseDecimal (cs : List Char) : Option ℚ :=
  let intPart := cs.takeWhile Char.isDigit
  let rest := cs.drop intPart.length
  let fracPart :=
    if rest.head? = some '.' then rest.tail.takeWhile Char.isDigit else []
  if intPart = [] ∧ fracPart = [] then none
  else some ((digitsToNat intPart : ℚ) + (digitsToNat fracPart : ℚ) / 10 ^ fracPart.length)

/-- Decimal digit as a character. -/
def digitChar (d : Nat) : Char := Char.ofNat (48 + d)

/-- Two-digit zero-padded rendering of `m % 100`. -/
def pad2 (m : Nat) : String := ⟨[digitChar (m / 10), digitChar (m % 10)]⟩

/-- Cents value of `q`, rounded half toward positive infinity as
`Number.prototype.toFixed` does. -/
def centsRound (q : ℚ) : Int := ⌊q * 100 + 1 / 2⌋

/-- Render a non-negative number of cents as `units.dd`. -/
def renderCents (n : Nat) : String := toString (n / 100) ++ "." ++ pad2 (n % 100)

/-- JavaScript `toFixed(2)` on an exact rational. -/
def toFixed2 (q : ℚ) : String :=
  let n := centsRound q
  if n < 0 then "-" ++ renderCents n.natAbs else renderCents n.toNat

/-- Function `formatPrice` from `frontend/src/lib/utils.ts`.  `none` is an absent
argument; JavaScript falsiness of `0` and `""` is explicit. -/
def formatPrice (price : Option PriceInput) : String :=
  match price with
  | none => "价格待定"
  | some (.num q) =>
    if q = 0 then "价格待定" else "¥" ++ toFixed2 q
  | some (.str s) =>
    if s = "" then "价格待定"
    else
      match firstMatch s.data with
      | some m =>
        match parseDecimal (stripCommas m) with
        | some q => "¥" ++ toFixed2 q
        | none => "¥NaN"
      | none => s

/- Search form submission, from the `handleSubmit` handler in
`frontend/src/components/search/search-form.tsx`. -/

/-- Toast messages `handleSubmit` can emit. -/
inductive ToastMsg where
  | errEmptyKeyword
  | successCached
  | successFresh
  | errMessage (m : String)
deriving DecidableEq, Repr

/-- Observable effects of one `handleSubmit` run: the request passed to
`api.getTopProducts` (if invoked), the response passed to `onSearch` (if
called), and the toast shown. -/
structure SubmitOutcome where
  apiCalled : Option SearchRequest
  displayed : Option SearchResponse
  toast : ToastMsg
deriving DecidableEq, Repr

/-- Handler `handleSubmit` from the search form, with the awaited
`api.getTopProducts` result supplied as an oracle.  An empty trimmed keyword
is rejected before the API call; otherwise the trimmed keyword is submitted
and a success result is handed to `onSearch`. -/
def handleSubmit (keyword : String) (apiResult : Except String SearchResponse) :
    SubmitOutcome :=
  if jsTrim keyword = "" then
    ⟨none, none, .errEmptyKeyword⟩
  else
    match apiResult with
    | .ok r => ⟨some ⟨jsTrim keyword⟩, some r,
        if r.cached then .successCached else .successFresh⟩
    | .error m => ⟨some ⟨jsTrim keyword⟩, none, .errMessage m⟩

/- ApiClient, from `frontend/src/lib/api.ts`. -/

/-- Outcome of the awaited axios `post`: either a parsed reply body, or an
axios error carrying the optional `error.response.data.message` and the
always-present `error.message`. -/
inductive PostOutcome (T : Type) where
  | reply (resp : ApiResponse T)
  | axiosError (respMessage : Option String) (message : String)
deriving DecidableEq, Repr

/-- JavaScript `a || b` on an optional string: the default is used when the
string is absent or empty (falsy). -/
def jsOrElse (o : Option String) (dflt : String) : String :=
  match o with
  | some m => if m = "" then dflt else m
  | none => dflt

/-- Method `ApiClient.getTopProducts`: returns the payload when the reply has
status `success` and a `data` field; otherwise throws an `Error` whose
message comes from the reply's `message` field (or a fixed fallback), and for
axios errors from `error.response.data.message` or `error.message`. -/
def getTopProducts (out : PostOutcome SearchResponse) :
    Except String SearchResponse :=
  match out with
  | .reply resp =>
    match resp.status, resp.data with
    | .success, some d => .ok d
    | .success, none => .error (jsOrElse resp.message "获取推荐失败")
    | .error, _ => .error (jsOrElse resp.message "获取推荐失败")
  | .axiosError respMsg msg => .error ("网络错误: " ++ jsOrElse respMsg msg)

/-- An HTTP completion as the ApiClient's interceptors see it: a response
with a status code (2xx resolves, others reject as axios errors carrying the
response), or a network failure with no response at all. -/
inductive HttpEvent where
  | response (status : Nat)
  | networkError
deriving DecidableEq, Repr

/-- The ApiClient's stored token after its response interceptor handles one
completion: only a response with status 401 clears the token. -/
def tokenAfter (token : Option String) (e : HttpEvent) : Option String :=
  match e with
  | .response status => if status = 401 then none else token
  | .networkError => token

/-- The request interceptor's `Authorization` header: the guard
`if (this.token)` is JavaScript truthiness, so an absent token and a stored
empty-string token both send no header. -/
def authHeader (token : Option String) : Option String :=
  match token with
  | some t => if t = "" then none else some ("Bearer " ++ t)
  | none => none

/-- Method `ApiClient.setToken`. -/
def setToken (_token : Option String) (t : String) : Option String := some t

/- Model extractor validation.  The backend is not part of the repository
sources; modelled from the specification. -/

/-- Modelled from the spec: the Model Extractor's post-generation validation
(missing backend `services` module) — (a) exactly three entries, (b) ranks
are the set \x7b1,2,3\x7d, (c) every `source_link` matches a supplied
result's link. -/
def validateProducts (results : List SearchResult)
    (ps : List ProductRecommendation) : Bool :=
  ps.length == 3 &&
  (decide ((1 : ℚ) ∈ ps.map (·.rank)) &&
   decide ((2 : ℚ) ∈ ps.map (·.rank)) &&
   decide ((3 : ℚ) ∈ ps.map (·.rank))) &&
  ps.all (fun p => decide (p.source_link ∈ results.map (·.link)))

/-- Failure modes of the Model Extractor, from the spec's error taxonomy. -/
inductive ExtractError where
  | extractionFailed (reason : String)
  | quotaExceeded
  | networkError
deriving DecidableEq, Repr

/-- One language-model generation attempt's outcome. -/
inductive ModelResult where
  | structured (products : List ProductRecommendation)
  | malformedOutput
  | quotaExceeded
  | networkError
deriving DecidableEq, Repr

/-- Modelled from the spec: the repair attempt of the Model Extractor
(missing backend `services` module) — the stricter-prompt retry, whose
output is validated once more; a second failure surfaces `ExtractionFailed`,
and quota or network errors propagate immediately. -/
def retryExtract (results : List SearchResult) (retry : ModelResult) :
    Except ExtractError (List ProductRecommendation) :=
  match retry with
  | .structured ps =>
    if validateProducts results ps then .ok ps
    else .error (.extractionFailed "validation failed after repair")
  | .malformedOutput => .error (.extractionFailed "malformed output after repair")
  | .quotaExceeded => .error .quotaExceeded
  | .networkError => .error .networkError

/-- Modelled from the spec: `extract` of the Model Extractor (missing
backend `services` module) — validate the first structured output; on
validation failure or malformed output make one repair attempt; quota and
network errors propagate immediately. -/
def extract (results : List SearchResult) (first retry : ModelResult) :
    Except ExtractError (List ProductRecommendation) :=
  match first with
  | .structured ps =>
    if validateProducts results ps then .ok ps else retryExtract results retry
  | .malformedOutput => retryExtract results retry
  | .quotaExceeded => .error .quotaExceeded
  | .networkError => .error .networkError

/-- Modelled from the spec: the Orchestrator assembling a fresh
`RecommendationResponse` (missing backend module) — `total_results` is the
count of raw search results, `cached` is false for a fresh computation. -/
def buildResponse (results : List SearchResult)
    (ps : List ProductRecommendation) (time : ℚ) : SearchResponse :=
  { products := ps
    total_results := (results.length : ℚ)
    search_time := time
    cached := false }

/- Cache key derivation.  Modelled from the spec (missing backend module). -/

/-- ASCII case fold of one character (the spec's case-fold step). -/
def toLowerChar (c : Char) : Char :=
  if 'A' ≤ c ∧ c ≤ 'Z' then Char.ofNat (c.toNat + 32) else c

/-- Collapse runs of adjacent spaces to a single space. -/
def squashSpaces : List Char → List Char
  | [] => []
  | [c] => [c]
  | c :: c2 :: cs =>
    if c = ' ' && c2 = ' ' then squashSpaces (c2 :: cs)
    else c :: squashSpaces (c2 :: cs)

/-- Replace every whitespace character by a plain space, then collapse runs,
so internal whitespace of any kind becomes a single space. -/
def collapseWs (cs : List Char) : List Char :=
  squashSpaces (cs.map (fun c => if isJsWhitespace c then ' ' else c))

/-- Modelled from the spec: keyword normalization of the Result Cache
(missing backend module) — trim, case-fold, collapse internal whitespace. -/
def normalizeKeyword (s : String) : String :=
  ⟨collapseWs ((jsTrim s).data.map toLowerChar)⟩

/-- Modelled from the spec: the stable string hash used for cache keys
(missing backend module); a 64-bit polynomial rolling hash. -/
def strHash (s : String) : Nat :=
  s.data.foldl (fun h c => (h * 131 + c.toNat) % 2 ^ 64) 7

/-- Modelled from the spec: cache-key derivation (missing backend module) —
hash of the normalized keyword. -/
def cacheKey (s : String) : Nat := strHash (normalizeKeyword s)

/- Result cache.  Modelled from the spec (missing backend module). -/

/-- Record `CacheEntry` of the spec's data model: key, stored response, absolute
expiry time in seconds. -/
structure CacheEntry where
  key : Nat
  value : SearchResponse
  expires_at : ℚ
deriving DecidableEq, Repr

/-- Modelled from the spec: `put(key, response, ttl)` of the Result Cache
(missing backend module) — store the response under the key with expiry
`now + ttl`, replacing any previous entry for that key. -/
def cachePut (cache : List CacheEntry) (key : Nat) (r : SearchResponse)
    (now ttl : ℚ) : List CacheEntry :=
  ⟨key, r, now + ttl⟩ :: cache.filter (fun e => e.key ≠ key)

/-- Modelled from the spec: marking a cache hit — the stored response is
returned verbatim with the `cached` flag set. -/
def serveCached (r : SearchResponse) : SearchResponse :=
  { r with cached := true }

/-- Modelled from the spec: `get(key)` of the Result Cache (missing backend
module) — a hit is an unexpired entry for the key; the stored response is
returned with `cached = true`. -/
def cacheGet (cache : List CacheEntry) (key : Nat) (now : ℚ) :
    Option SearchResponse :=
  match cache.find? (fun e => e.key == key && decide (now < e.expires_at)) with
  | some e => some (serveCached e.value)
  | none => none

/- Coalescer.  Modelled from the spec (missing backend module). -/

/-- Outcome delivered to a waiter: the computed response or a failure
message. -/
abbrev Outcome := Except String SearchResponse

/-- Coalescer state: the in-flight registry (key to attached waiter request
ids), the log of Search Client calls, the log of Model Extractor calls, and
the outcomes delivered to requests. -/
structure CoalescerState where
  inflight : List (String × List Nat)
  searchCalls : List String
  modelCalls : List String
  delivered : List (Nat × Outcome)

/-- The waiters of the in-flight slot for a key, if one exists. -/
def lookupSlot (key : String) (l : List (String × List Nat)) :
    Option (List Nat) :=
  (l.find? (fun p => p.1 == key)).map (·.2)

/-- Attach one more waiter to the slot for a key. -/
def attachWaiter (key : String) (rid : Nat) (l : List (String × List Nat)) :
    List (String × List Nat) :=
  l.map (fun p => if p.1 == key then (p.1, p.2 ++ [rid]) else p)

/-- Remove the slot for a key. -/
def removeSlot (key : String) (l : List (String × List Nat)) :
    List (String × List Nat) :=
  l.filter (fun p => p.1 ≠ key)

/-- Events of the coalescing registry, in arrival order: a request arrives
for a key (cache miss), or the single computation for a key completes. -/
inductive CoEvent where
  | arrive (rid : Nat) (key : String)
  | complete (key : String) (outcome : Outcome)

/-- Modelled from the spec: one step of the Result Cache's coalescer
(missing backend module).  An arriving request attaches to an existing
in-flight slot, or creates the slot and triggers exactly one Search Client
call and one Model Extractor call; a completion delivers the one outcome to
every attached waiter and removes the slot at once. -/
def coStep (st : CoalescerState) (e : CoEvent) : CoalescerState :=
  match e with
  | .arrive rid key =>
    match lookupSlot key st.inflight with
    | some _ => { st with inflight := attachWaiter key rid st.inflight }
    | none =>
      { st with
        inflight := (key, [rid]) :: st.inflight
        searchCalls := st.searchCalls ++ [key]
        modelCalls := st.modelCalls ++ [key] }
  | .complete key outcome =>
    match lookupSlot key st.inflight with
    | some waiters =>
      { st with
        inflight := removeSlot key st.inflight
        delivered := st.delivered ++ waiters.map (fun rid => (rid, outcome)) }
    | none => st

/-- Run the coalescer over a sequence of events. -/
def coRun (st : CoalescerState) (es : List CoEvent) : CoalescerState :=
  es.foldl coStep st

/-- The coalescer's initial state: nothing in flight, no calls made. -/
def initCoalescer : CoalescerState := ⟨[], [], [], []⟩

/- Configuration store writes.  Modelled from the spec (missing backend
module); the admin client posts `ConfigurationUpdate = \x7b settings:
(key, value)[] \x7d` rows. -/

/-- Modelled from the spec: the Configuration Store applying an admin
`ConfigurationUpdate` (missing backend module) — `set(key, value)` updates
the value (and timestamp) of each matching row; the row's group is not part
of the update. -/
def applySettings (cfgs : List Configuration)
    (settings : List (String × String)) (now : String) : List Configuration :=
  cfgs.map (fun c =>
    match settings.find? (fun s => s.1 == c.key) with
    | some s => { c with value := s.2, updated_at := now }
    | none => c)

/- Shared helper lemmas. -/

/-- A successful extraction only ever returns a validated product list. -/
lemma extract_ok_valid {results : List SearchResult} {first retry : ModelResult}
    {ps : List ProductRecommendation}
    (h : extract results first retry = .ok ps) :
    validateProducts results ps = true := by
  unfold extract retryExtract at h
  cases first with
  | structured qs =>
    by_cases hv : validateProducts results qs = true
    · simp [hv] at h
      exact h ▸ hv
    · simp [hv] at h
      cases retry with
      | structured rs =>
        by_cases hr : validateProducts results rs = true
        · simp [hr] at h
          exact h ▸ hr
        · simp [hr] at h
      | malformedOutput => simp at h
      | quotaExceeded => simp at h
      | networkError => simp at h
  | malformedOutput =>
    cases retry with
    | structured rs =>
      by_cases hr : validateProducts results rs = true
      · simp [hr] at h
        exact h ▸ hr
      · simp [hr] at h
    | malformedOutput => simp at h
    | quotaExceeded => simp at h
    | networkError => simp at h
  | quotaExceeded => simp at h
  | networkError => simp at h

/-- Unpacking a positive validation verdict into its three checks. -/
lemma valid_components {results : List SearchResult}
    {ps : List ProductRecommendation}
    (h : validateProducts results ps = true) :
    ps.length = 3 ∧ (1 : ℚ) ∈ ps.map (·.rank) ∧ (2 : ℚ) ∈ ps.map (·.rank) ∧
    (3 : ℚ) ∈ ps.map (·.rank) ∧
    ∀ p ∈ ps, p.source_link ∈ results.map (·.link) := by
  simp only [validateProducts, Bool.and_eq_true, beq_iff_eq,
    decide_eq_true_eq, List.all_eq_true] at h
  tauto

/- Concrete data used to instantiate theorems with hypotheses. -/

/-- Three concrete search results. -/
def demoResults : List SearchResult :=
  [⟨"A", "https://a.example", "sa", 1, none, none⟩,
   ⟨"B", "https://b.example", "sb", 2, none, none⟩,
   ⟨"C", "https://c.example", "sc", 3, none, none⟩]

/-- Three concrete recommendations drawn from `demoResults`. -/
def demoProducts : List ProductRecommendation :=
  [⟨1, "PA", "da", "https://a.example", none, none, none, none, none, none⟩,
   ⟨2, "PB", "db", "https://b.example", none, none, none, none, none, none⟩,
   ⟨3, "PC", "dc", "https://c.example", none, none, none, none, none, none⟩]

/-- C1: for every successful response to a keyword submission, the
`products` field is an ordered sequence of exactly three
`ProductRecommendation` entries whose rank values form exactly the set
\x7b1,2,3\x7d, each rank occurring once. -/
theorem C1_exactly_three_ranked (results : List SearchResult)
    (first retry : ModelResult) (ps : List ProductRecommendation) (time : ℚ)
    (h : extract results first retry = .ok ps) :
    (buildResponse results ps time).products.length = 3 ∧
    ((buildResponse results ps time).products.map (·.rank)).Perm [(1 : ℚ), 2, 3] := by
  obtain ⟨hlen, h1, h2, h3, _⟩ := valid_components (extract_ok_valid h)
  have hsub : List.Subperm [(1 : ℚ), 2, 3] (ps.map (·.rank)) := by
    rw [List.subperm_ext_iff]
    intro x hx
    have hx' : x ∈ ps.map (·.rank) := by
      simp only [List.mem_cons, List.not_mem_nil, or_false] at hx
      rcases hx with rfl | rfl | rfl
      · exact h1
      · exact h2
      · exact h3
    have hcle : List.count x [(1 : ℚ), 2, 3] ≤ 1 :=
      List.nodup_iff_count_le_one.mp (by decide) x
    have hpos : 0 < List.count x (ps.map (·.rank)) :=
      List.count_pos_iff.mpr hx'
    omega
  have hperm := hsub.perm_of_length_le (by simp [hlen])
  exact ⟨by simp [buildResponse, hlen], by simpa [buildResponse] using hperm.symm⟩

theorem C1_witness :
    (buildResponse demoResults demoProducts 2).products.length = 3 ∧
    ((buildResponse demoResults demoProducts 2).products.map (·.rank)).Perm
      [(1 : ℚ), 2, 3] :=
  C1_exactly_three_ranked demoResults (.structured demoProducts)
    .malformedOutput demoProducts 2 (by rfl)

/-- C2: every `ProductRecommendation` returned by the extractor has a
`source_link` equal to the `link` of one of the `SearchResult`s supplied to
the extractor for that request; invalid output is rejected or repaired,
never returned. -/
theorem C2_provenance (results : List SearchResult) (first retry : ModelResult)
    (ps : List ProductRecommendation)
    (h : extract results first retry = .ok ps) :
    ∀ p ∈ ps, p.source_link ∈ results.map (·.link) :=
  (valid_components (extract_ok_valid h)).2.2.2.2

theorem C2_witness :
    (demoProducts.get ⟨0, by decide⟩).source_link ∈ demoResults.map (·.link) :=
  C2_provenance demoResults .malformedOutput (.structured demoProducts)
    demoProducts (by rfl) (demoProducts.get ⟨0, by decide⟩) (by decide)

/-- C4: keyword strings that differ only in leading and trailing whitespace
or letter case derive the same cache key; key derivation factors through
normalization, so equal normalized keywords always map to the same key. -/
theorem C4_cache_key_normalization (s t : String)
    (h : (jsTrim s).data.map toLowerChar = (jsTrim t).data.map toLowerChar) :
    cacheKey s = cacheKey t ∧
    (∀ u v : String, normalizeKeyword u = normalizeKeyword v →
      cacheKey u = cacheKey v) := by
  constructor
  · unfold cacheKey normalizeKeyword
    rw [h]
  · intro u v huv
    unfold cacheKey
    rw [huv]

theorem C4_witness : cacheKey "  Wireless Earbuds " = cacheKey "wireless earbuds" :=
  (C4_cache_key_normalization "  Wireless Earbuds " "wireless earbuds" (by decide)).1

/-- C5: a submitted keyword whose trimmed form is empty is rejected before
any external call: `handleSubmit` returns without invoking
`api.getTopProducts` and without changing the displayed results. -/
theorem C5_empty_keyword_rejected (keyword : String)
    (apiResult : Except String SearchResponse) (h : jsTrim keyword = "") :
    (handleSubmit keyword apiResult).apiCalled = none ∧
    (handleSubmit keyword apiResult).displayed = none ∧
    (handleSubmit keyword apiResult).toast = .errEmptyKeyword := by
  simp [handleSubmit, h]

theorem C5_witness :
    (handleSubmit "   " (.error "offline")).apiCalled = none ∧
    (handleSubmit "   " (.error "offline")).displayed = none ∧
    (handleSubmit "   " (.error "offline")).toast = .errEmptyKeyword :=
  C5_empty_keyword_rejected "   " (.error "offline") (by decide)

/-- C6: `getTopProducts` returns the contained `SearchResponse` exactly when
the reply has status `success` and a data payload; in every other case it
throws an `Error` carrying only a message derived from the reply's `message`
field (or a fixed fallback), never the raw payload. -/
theorem C6_getTopProducts_contract :
    (∀ (out : PostOutcome SearchResponse) (d : SearchResponse),
      getTopProducts out = .ok d ↔
        ∃ msg, out = .reply ⟨.success, some d, msg⟩) ∧
    (∀ resp : ApiResponse SearchResponse,
      resp.status = .error ∨ resp.data = none →
        getTopProducts (.reply resp) =
          .error (jsOrElse resp.message "获取推荐失败")) ∧
    (∀ o m, getTopProducts (.axiosError o m) =
      .error ("网络错误: " ++ jsOrElse o m)) := by
  refine ⟨?_, ?_, fun o m => rfl⟩
  · intro out d
    constructor
    · intro h
      match out with
      | .reply ⟨.success, some x, msg⟩ =>
        simp only [getTopProducts, Except.ok.injEq] at h
        exact ⟨msg, by rw [h]⟩
      | .reply ⟨.success, none, msg⟩ => simp [getTopProducts] at h
      | .reply ⟨.error, dta, msg⟩ => simp [getTopProducts] at h
      | .axiosError o m => simp [getTopProducts] at h
    · rintro ⟨msg, rfl⟩
      rfl
  · intro resp hr
    match resp, hr with
    | ⟨.error, dta, msg⟩, _ => rfl
    | ⟨.success, none, msg⟩, _ => rfl
    | ⟨.success, some x, msg⟩, hr => simp at hr

theorem C6_witness :
    getTopProducts (PostOutcome.reply
        (⟨.error, none, some "quota exceeded"⟩ : ApiResponse SearchResponse)) =
      .error (jsOrElse (some "quota exceeded") "获取推荐失败") :=
  C6_getTopProducts_contract.2.1 ⟨.error, none, some "quota exceeded"⟩ (Or.inl rfl)

/-- C7: a cache key served within its TTL returns a verbatim copy of the
response originally computed for that key — same products, total results and
search time — with the `cached` flag set to true. -/
theorem C7_cache_hit_verbatim (cache : List CacheEntry) (key : Nat)
    (r : SearchResponse) (now ttl t : ℚ) (h : t < now + ttl) :
    cacheGet (cachePut cache key r now ttl) key t =
      some { r with cached := true } ∧
    ∀ r', cacheGet (cachePut cache key r now ttl) key t = some r' →
      r'.products = r.products ∧ r'.total_results = r.total_results ∧
      r'.search_time = r.search_time ∧ r'.cached = true := by
  have hhit : cacheGet (cachePut cache key r now ttl) key t =
      some { r with cached := true } := by
    unfold cacheGet cachePut
    rw [List.find?_cons_of_pos]
    · rfl
    · simp [h]
  refine ⟨hhit, fun r' hr' => ?_⟩
  rw [hhit] at hr'
  cases hr'
  exact ⟨rfl, rfl, rfl, rfl⟩

theorem C7_witness :
    cacheGet (cachePut [] 42 (buildResponse demoResults demoProducts 2) 0 21600)
        42 100 =
      some { buildResponse demoResults demoProducts 2 with cached := true } :=
  (C7_cache_hit_verbatim [] 42 (buildResponse demoResults demoProducts 2)
    0 21600 100 (by norm_num)).1

/-- C8: every `ConfigurationEntry` has a group drawn from exactly the four
values api, prompt, ui, cache, and configuration writes (which update only
value and timestamp) preserve every entry's group. -/
theorem C8_config_group_invariant :
    (∀ g : ConfigGroup, g.name ∈ ["api", "prompt", "ui", "cache"]) ∧
    (∀ c : Configuration, c.group.name ∈ ["api", "prompt", "ui", "cache"]) ∧
    (∀ (cfgs : List Configuration) (settings : List (String × String))
      (now : String),
      (applySettings cfgs settings now).map (·.group) =
        cfgs.map (·.group)) := by
  have hg : ∀ g : ConfigGroup, g.name ∈ ["api", "prompt", "ui", "cache"] := by
    intro g
    cases g <;> simp [ConfigGroup.name]
  refine ⟨hg, fun c => hg c.group, ?_⟩
  intro cfgs settings now
  induction cfgs with
  | nil => rfl
  | cons c cs ih =>
    simp only [applySettings, List.map_cons, List.map_map] at ih ⊢
    refine congrArg₂ List.cons ?_ ih
    cases settings.find? (fun s => s.1 == c.key) <;> rfl

/-- C10: an HTTP response with status 401 clears the ApiClient's stored
token, so subsequent requests carry no Authorization header until `setToken`
is called again; any other completion leaves the token unchanged. -/
theorem C10_unauthorized_clears_token (token : Option String) (s : Nat) :
    (s = 401 → tokenAfter token (.response s) = none ∧
      authHeader (tokenAfter token (.response s)) = none) ∧
    (s ≠ 401 → tokenAfter token (.response s) = token) ∧
    tokenAfter token .networkError = token ∧
    (∀ t : String, t ≠ "" →
      authHeader (setToken (tokenAfter token (.response 401)) t) =
        some ("Bearer " ++ t)) := by
  refine ⟨?_, ?_, rfl, ?_⟩
  · rintro rfl
    simp [tokenAfter, authHeader]
  · intro hne
    simp [tokenAfter, hne]
  · intro t ht
    simp [setToken, authHeader, ht]

theorem C10_witness :
    (tokenAfter (some "jwt") (.response 401) = none ∧
      authHeader (tokenAfter (some "jwt") (.response 401)) = none) ∧
    authHeader (setToken (tokenAfter (some "jwt") (.response 401)) "jwt2") =
      some ("Bearer " ++ "jwt2") :=
  ⟨(C10_unauthorized_clears_token (some "jwt") 401).1 rfl,
   (C10_unauthorized_clears_token (some "jwt") 401).2.2.2 "jwt2" (by decide)⟩

/-- Requests arriving for a key whose slot is the only one in flight all
attach to that slot without triggering further calls. -/
lemma coRun_arrivals (rids : List Nat) (key : String) (ws : List Nat)
    (A B : List String) (D : List (Nat × Outcome)) :
    coRun ⟨[(key, ws)], A, B, D⟩ (rids.map (CoEvent.arrive · key)) =
      ⟨[(key, ws ++ rids)], A, B, D⟩ := by
  induction rids generalizing ws with
  | nil => simp [coRun]
  | cons r rs ih =>
    rw [List.map_cons, coRun, List.foldl_cons]
    have hstep : coStep ⟨[(key, ws)], A, B, D⟩ (.arrive r key) =
        ⟨[(key, ws ++ [r])], A, B, D⟩ := by
      simp [coStep, lookupSlot, attachWaiter]
    rw [hstep]
    have hih := ih (ws ++ [r])
    rw [coRun] at hih
    rw [hih]
    simp

/-- C3: N concurrent requests for the same new keyword, all issued before
any completes, make exactly one Search Client call and exactly one Model
Extractor call, and every request receives the same outcome. -/
theorem C3_coalescing (rids : List Nat) (key : String) (outcome : Outcome)
    (hne : rids ≠ []) :
    (coRun initCoalescer
        (rids.map (CoEvent.arrive · key) ++ [.complete key outcome])).searchCalls
      = [key] ∧
    (coRun initCoalescer
        (rids.map (CoEvent.arrive · key) ++ [.complete key outcome])).modelCalls
      = [key] ∧
    (coRun initCoalescer
        (rids.map (CoEvent.arrive · key) ++ [.complete key outcome])).delivered
      = rids.map (fun rid => (rid, outcome)) ∧
    ∀ rid ∈ rids, (rid, outcome) ∈
      (coRun initCoalescer
        (rids.map (CoEvent.arrive · key) ++ [.complete key outcome])).delivered := by
  obtain ⟨r, rs, rfl⟩ := List.exists_cons_of_ne_nil hne
  have h1 : coStep initCoalescer (.arrive r key) =
      ⟨[(key, [r])], [key], [key], []⟩ := by
    simp [coStep, initCoalescer, lookupSlot]
  have h2 : coRun (⟨[(key, [r])], [key], [key], []⟩ : CoalescerState)
      (rs.map (CoEvent.arrive · key)) =
      ⟨[(key, r :: rs)], [key], [key], []⟩ := by
    simpa using coRun_arrivals rs key [r] [key] [key] []
  have h3 : coStep (⟨[(key, r :: rs)], [key], [key], []⟩ : CoalescerState)
      (.complete key outcome) =
      ⟨[], [key], [key], (r :: rs).map (fun rid => (rid, outcome))⟩ := by
    simp [coStep, lookupSlot, removeSlot]
  have hfin : coRun initCoalescer
      ((r :: rs).map (CoEvent.arrive · key) ++ [.complete key outcome]) =
      ⟨[], [key], [key], (r :: rs).map (fun rid => (rid, outcome))⟩ := by
    have h2' : List.foldl coStep
        (⟨[(key, [r])], [key], [key], []⟩ : CoalescerState)
        (rs.map (CoEvent.arrive · key)) =
        ⟨[(key, r :: rs)], [key], [key], []⟩ := h2
    have hinner : List.foldl coStep initCoalescer
        (CoEvent.arrive r key :: rs.map (CoEvent.arrive · key)) =
        ⟨[(key, r :: rs)], [key], [key], []⟩ := by
      rw [List.foldl_cons, h1, h2']
    rw [coRun, List.foldl_append, List.map_cons, hinner, List.foldl_cons, h3,
      List.foldl_nil]
  rw [hfin]
  exact ⟨rfl, rfl, rfl, fun rid hrid => List.mem_map_of_mem _ hrid⟩

theorem C3_witness :
    (coRun initCoalescer
        ([10, 11, 12].map (CoEvent.arrive · "coffee maker") ++
          [.complete "coffee maker"
            (.ok (buildResponse demoResults demoProducts 2))])).searchCalls
      = ["coffee maker"] ∧
    (coRun initCoalescer
        ([10, 11, 12].map (CoEvent.arrive · "coffee maker") ++
          [.complete "coffee maker"
            (.ok (buildResponse demoResults demoProducts 2))])).modelCalls
      = ["coffee maker"] ∧
    (coRun initCoalescer
        ([10, 11, 12].map (CoEvent.arrive · "coffee maker") ++
          [.complete "coffee maker"
            (.ok (buildResponse demoResults demoProducts 2))])).delivered
      = [10, 11, 12].map
          (fun rid => (rid, .ok (buildResponse demoResults demoProducts 2))) ∧
    ∀ rid ∈ [10, 11, 12], (rid, .ok (buildResponse demoResults demoProducts 2)) ∈
      (coRun initCoalescer
        ([10, 11, 12].map (CoEvent.arrive · "coffee maker") ++
          [.complete "coffee maker"
            (.ok (buildResponse demoResults demoProducts 2))])).delivered :=
  C3_coalescing [10, 11, 12] "coffee maker"
    (.ok (buildResponse demoResults demoProducts 2)) (by decide)

/-- A displayed price ends in a dot followed by exactly two decimal
digits. -/
def hasTwoDecimals (s : String) : Prop :=
  ∃ t d1 d2, s.data = t ++ ['.', d1, d2] ∧ d1.isDigit = true ∧ d2.isDigit = true

/-- A decimal digit index yields a digit character. -/
lemma digitChar_isDigit {d : Nat} (h : d ≤ 9) : (digitChar d).isDigit = true := by
  interval_cases d <;> decide

/-- Rendered cents always carry exactly two decimal places. -/
lemma hasTwoDecimals_renderCents (n : Nat) : hasTwoDecimals (renderCents n) := by
  refine ⟨(toString (n / 100)).data, digitChar (n % 100 / 10),
    digitChar (n % 100 % 10), ?_, ?_, ?_⟩
  · show (toString (n / 100) ++ "." ++ pad2 (n % 100)).data = _
    rw [String.data_append, String.data_append, List.append_assoc]
    rfl
  · exact digitChar_isDigit (by omega)
  · exact digitChar_isDigit (by omega)

/-- For a non-negative value, `toFixed2` takes the non-negative branch. -/
lemma toFixed2_nonneg {q : ℚ} (h : 0 ≤ q) :
    toFixed2 q = renderCents (centsRound q).toNat := by
  have hc : 0 ≤ centsRound q := by
    apply Int.le_floor.mpr
    push_cast
    nlinarith
  simp [toFixed2, not_lt.mpr hc]

/-- Any non-negative rational displays with exactly two decimal places. -/
lemma hasTwoDecimals_toFixed2 {q : ℚ} (h : 0 ≤ q) :
    hasTwoDecimals (toFixed2 q) := by
  rw [toFixed2_nonneg h]
  exact hasTwoDecimals_renderCents _

/-- Function `takeWhile` passes over a prefix that satisfies the predicate. -/
lemma takeWhile_append_all {p : Char → Bool} {l1 : List Char}
    (h : ∀ c ∈ l1, p c = true) (l2 : List Char) :
    (l1 ++ l2).takeWhile p = l1 ++ l2.takeWhile p := by
  induction l1 with
  | nil => rfl
  | cons c cs ih =>
    have hc : p c = true := h c (List.mem_cons_self c cs)
    simp only [List.cons_append, List.takeWhile_cons, hc, if_true]
    rw [ih (fun x hx => h x (List.mem_cons_of_mem c hx))]

/-- Function `takeWhile` stops immediately on a list that refutes the predicate
everywhere. -/
lemma takeWhile_nil_of_all_false {p : Char → Bool} {l : List Char}
    (h : ∀ c ∈ l, p c = false) : l.takeWhile p = [] := by
  cases l with
  | nil => rfl
  | cons c cs =>
    simp [List.takeWhile_cons, h c (List.mem_cons_self c cs)]

/-- Result of `parseFloat` is NaN on input containing no digit. -/
lemma parseDecimal_none_of_no_digit {cs : List Char}
    (h : ∀ c ∈ cs, c.isDigit = false) : parseDecimal cs = none := by
  have hint : cs.takeWhile Char.isDigit = [] := takeWhile_nil_of_all_false h
  have hfrac : (cs.tail.takeWhile Char.isDigit) = [] :=
    takeWhile_nil_of_all_false fun x hx => h x (List.mem_of_mem_tail hx)
  unfold parseDecimal
  simp [hint, hfrac]

/-- Members of a `takeWhile` run satisfy the predicate. -/
lemma mem_takeWhile_sat {p : Char → Bool} {l : List Char} {c : Char}
    (h : c ∈ l.takeWhile p) : p c = true := by
  induction l with
  | nil => simp [List.takeWhile] at h
  | cons a l ih =>
    rw [List.takeWhile_cons] at h
    by_cases ha : p a
    · rw [if_pos ha] at h
      rcases List.mem_cons.mp h with rfl | h
      · exact ha
      · exact ih h
    · rw [if_neg ha] at h
      simp at h

/-- Digit runs all satisfy `takeWhile Char.isDigit` fully. -/
lemma takeWhile_isDigit_self {ds : List Char}
    (h : ∀ c ∈ ds, c.isDigit = true) : ds.takeWhile Char.isDigit = ds := by
  have := takeWhile_append_all h ([] : List Char)
  simpa using this

/-- Parsing a digit run, a dot and a second digit run, at least one
of the runs non-empty: the parse succeeds with a non-negative value. -/
lemma parseDecimal_dot (ds1 ds2 : List Char)
    (h1 : ∀ c ∈ ds1, c.isDigit = true) (h2 : ∀ c ∈ ds2, c.isDigit = true)
    (hne : ds1 ≠ [] ∨ ds2 ≠ []) :
    ∃ q : ℚ, parseDecimal (ds1 ++ '.' :: ds2) = some q ∧ 0 ≤ q := by
  have hint : (ds1 ++ '.' :: ds2).takeWhile Char.isDigit = ds1 := by
    rw [takeWhile_append_all h1]
    simp [List.takeWhile_cons]
  have hrest : (ds1 ++ '.' :: ds2).drop ds1.length = '.' :: ds2 :=
    List.drop_left ds1 ('.' :: ds2)
  have hcond : ¬(ds1 = [] ∧ ds2 = []) := by
    rintro ⟨hd1, hd2⟩
    rcases hne with hn | hn
    · exact hn hd1
    · exact hn hd2
  refine ⟨(digitsToNat ds1 : ℚ) + (digitsToNat ds2 : ℚ) / 10 ^ ds2.length,
    ?_, by positivity⟩
  unfold parseDecimal
  simp [hint, hrest, takeWhile_isDigit_self h2, hcond]

/-- Parsing a non-empty plain digit run: the parse succeeds with a
non-negative value. -/
lemma parseDecimal_nodot (ds1 : List Char)
    (h1 : ∀ c ∈ ds1, c.isDigit = true) (hd1 : ds1 ≠ []) :
    ∃ q : ℚ, parseDecimal ds1 = some q ∧ 0 ≤ q := by
  have hint : ds1.takeWhile Char.isDigit = ds1 := takeWhile_isDigit_self h1
  have hrest : ds1.drop ds1.length = [] := by simp
  refine ⟨(digitsToNat ds1 : ℚ) +
      (digitsToNat ([] : List Char) : ℚ) / 10 ^ ([] : List Char).length,
    ?_, by positivity⟩
  unfold parseDecimal
  simp [hint, hrest, hd1]

/-- The regex finds no match exactly when no character is a digit or a
comma. -/
lemma firstMatch_none_iff {cs : List Char} :
    firstMatch cs = none ↔ ∀ c ∈ cs, isDigitOrComma c = false := by
  induction cs with
  | nil => simp [firstMatch]
  | cons c cs ih =>
    by_cases hc : isDigitOrComma c = true
    · simp [firstMatch, hc]
    · rw [Bool.not_eq_true] at hc
      simp [firstMatch, hc, ih]

/-- Every match found by `firstMatch` is the match starting at some
suffix. -/
lemma firstMatch_isMatchAt {cs m : List Char} (h : firstMatch cs = some m) :
    ∃ u, m = matchAt u := by
  induction cs with
  | nil => simp [firstMatch] at h
  | cons c cs ih =>
    by_cases hc : isDigitOrComma c = true
    · rw [firstMatch, if_pos hc] at h
      exact ⟨c :: cs, (Option.some_inj.mp h).symm⟩
    · rw [firstMatch, if_neg (by simp [hc])] at h
      exact ih h

/-- A comma-stripped regex match is a digit run, optionally followed by a
dot and a second digit run. -/
lemma strip_matchAt (u : List Char) :
    ∃ ds1 ds2 : List Char,
      (∀ c ∈ ds1, c.isDigit = true) ∧ (∀ c ∈ ds2, c.isDigit = true) ∧
      (stripCommas (matchAt u) = ds1 ++ '.' :: ds2 ∨
        stripCommas (matchAt u) = ds1) := by
  refine ⟨stripCommas (u.takeWhile isDigitOrComma),
    (u.dropWhile isDigitOrComma).tail.takeWhile Char.isDigit, ?_, ?_, ?_⟩
  · intro c hc
    rw [stripCommas, List.mem_filter] at hc
    have h1 := mem_takeWhile_sat hc.1
    have h2 := hc.2
    rw [isDigitOrComma, Bool.or_eq_true] at h1
    rcases h1 with h | h
    · exact h
    · simp only [decide_eq_true_eq] at h h2
      exact absurd h h2
  · intro c hc
    exact mem_takeWhile_sat hc
  · rw [matchAt, stripCommas, List.filter_append]
    by_cases hd : (u.dropWhile isDigitOrComma).head? = some '.'
    · left
      rw [fracTail, if_pos hd]
      congr 1
      rw [List.filter_eq_self]
      intro c hc
      rcases List.mem_cons.mp hc with rfl | hc
      · decide
      · have hdig := mem_takeWhile_sat hc
        simp only [decide_eq_true_eq]
        intro hcomma
        subst hcomma
        simp at hdig
    · right
      rw [fracTail, if_neg hd]
      simp [stripCommas]

/-- Reduction of `formatPrice` on a non-empty string in which the regex
finds a match. -/
lemma formatPrice_str_eq {s : String} (hs : ¬s = "") {m : List Char}
    (hm : firstMatch s.data = some m) :
    formatPrice (some (.str s)) =
      (match parseDecimal (stripCommas m) with
        | some q => "¥" ++ toFixed2 q
        | none => "¥NaN") := by
  simp only [formatPrice, if_neg hs, hm]

/-- Behavior of `formatPrice` on a non-empty matched string, split by
whether the comma-stripped match contains a digit. -/
lemma formatPrice_str_digit {s : String} {m : List Char} (hs : ¬s = "")
    (hm : firstMatch s.data = some m) :
    ((stripCommas m).any Char.isDigit = true →
      ∃ q : ℚ, parseDecimal (stripCommas m) = some q ∧
        formatPrice (some (.str s)) = "¥" ++ toFixed2 q ∧
        hasTwoDecimals (toFixed2 q)) ∧
    ((stripCommas m).any Char.isDigit = false →
      formatPrice (some (.str s)) = "¥NaN") := by
  obtain ⟨u, rfl⟩ := firstMatch_isMatchAt hm
  obtain ⟨ds1, ds2, hds1, hds2, hshape⟩ := strip_matchAt u
  constructor
  · intro hany
    rcases hshape with hsh | hsh
    · have hne : ds1 ≠ [] ∨ ds2 ≠ [] := by
        rw [hsh, List.any_eq_true] at hany
        obtain ⟨c, hc, hcd⟩ := hany
        rcases List.mem_append.mp hc with h | h
        · exact Or.inl (List.ne_nil_of_mem h)
        · rcases List.mem_cons.mp h with rfl | h
          · simp at hcd
          · exact Or.inr (List.ne_nil_of_mem h)
      obtain ⟨q, hq, hq0⟩ := parseDecimal_dot ds1 ds2 hds1 hds2 hne
      rw [← hsh] at hq
      refine ⟨q, hq, ?_, hasTwoDecimals_toFixed2 hq0⟩
      rw [formatPrice_str_eq hs hm, hq]
    · have hne : ds1 ≠ [] := by
        rw [hsh, List.any_eq_true] at hany
        obtain ⟨c, hc, _⟩ := hany
        exact List.ne_nil_of_mem hc
      obtain ⟨q, hq, hq0⟩ := parseDecimal_nodot ds1 hds1 hne
      rw [← hsh] at hq
      refine ⟨q, hq, ?_, hasTwoDecimals_toFixed2 hq0⟩
      rw [formatPrice_str_eq hs hm, hq]
  · intro hany
    have hnone : parseDecimal (stripCommas (matchAt u)) = none := by
      apply parseDecimal_none_of_no_digit
      intro c hc
      by_contra hcd
      rw [Bool.not_eq_false] at hcd
      have htrue : (stripCommas (matchAt u)).any Char.isDigit = true :=
        List.any_eq_true.mpr ⟨c, hc, hcd⟩
      rw [hany] at htrue
      exact Bool.false_ne_true htrue
    rw [formatPrice_str_eq hs hm, hnone]

/-- C9 counterexample: the string "abc,def" contains no digit, yet
`formatPrice` does not return it unchanged — the regex `[\d,]+\.?\d*`
matches its comma, `parseFloat` of the stripped match is NaN, and the
result is "¥NaN". -/
theorem C9_counterexample :
    (∀ c ∈ "abc,def".data, c.isDigit = false) ∧
    formatPrice (some (.str "abc,def")) = "¥NaN" ∧
    formatPrice (some (.str "abc,def")) ≠ "abc,def" :=
  ⟨by decide, by decide, by decide⟩

/-- C9 (amended): `formatPrice` maps 0, the empty string and an absent
price to the placeholder; every positive number to '¥' plus the value with
exactly two decimal places; for a string, the first match of the pattern
[digits or commas, optional dot and digits] is extracted — if the match has
a digit the result is '¥' plus the extracted number (commas removed) with
two decimal places; a string with no digit and no comma is returned
unchanged; a string whose match holds only commas yields "¥NaN". -/
theorem C9_formatPrice_amended :
    formatPrice none = "价格待定" ∧
    formatPrice (some (.num 0)) = "价格待定" ∧
    formatPrice (some (.str "")) = "价格待定" ∧
    (∀ q : ℚ, 0 < q →
      formatPrice (some (.num q)) = "¥" ++ toFixed2 q ∧
        hasTwoDecimals (toFixed2 q)) ∧
    (∀ s : String, ¬s = "" → (∀ c ∈ s.data, isDigitOrComma c = false) →
      formatPrice (some (.str s)) = s) ∧
    (∀ (s : String) (m : List Char), ¬s = "" → firstMatch s.data = some m →
      ((stripCommas m).any Char.isDigit = true →
        ∃ q : ℚ, parseDecimal (stripCommas m) = some q ∧
          formatPrice (some (.str s)) = "¥" ++ toFixed2 q ∧
          hasTwoDecimals (toFixed2 q)) ∧
      ((stripCommas m).any Char.isDigit = false →
        formatPrice (some (.str s)) = "¥NaN")) := by
  refine ⟨rfl, by simp [formatPrice], rfl, ?_, ?_, ?_⟩
  · intro q hq
    exact ⟨by simp [formatPrice, hq.ne'], hasTwoDecimals_toFixed2 hq.le⟩
  · intro s hs hall
    simp only [formatPrice, if_neg hs, firstMatch_none_iff.mpr hall]
  · intro s m hs hm
    exact formatPrice_str_digit hs hm

theorem C9_witness :
    formatPrice (some (.str "hello")) = "hello" ∧
    formatPrice (some (.num 5)) = "¥" ++ toFixed2 5 ∧
    hasTwoDecimals (toFixed2 5) :=
  ⟨C9_formatPrice_amended.2.2.2.2.1 "hello" (by decide) (by decide),
   (C9_formatPrice_amended.2.2.2.1 5 (by decide)).1,
   (C9_formatPrice_amended.2.2.2.1 5 (by decide)).2⟩

end Top3
